import Mathlib

/-!
Verification of the WindTexter steganographic codec core (`server.py`).

The development shallowly embeds the bit-level codec (`text_to_bits`,
`bits_to_text`) and the cover-text encoder (`encode_message_to_cover_text`).
Pure Python code is translated to Lean functions; the in-place mutation of the
caller's `bit_sequence` list is made explicit by returning the final value of
that list; the external language model, tokenizer, compression and cipher
providers (which live outside the embedded file) are either parameters of the
embedding or are modelled from the spec, as marked in the doc comments.
-/

namespace WindTexter

/-- Constant `CHUNK_SIZE = 4` from server.py (line 154). -/
def CHUNK_SIZE : Nat := 4

/-- Constant `TOP_K = 2 ** CHUNK_SIZE` from server.py (line 155). -/
def TOP_K : Nat := 2 ^ CHUNK_SIZE

/-- The padding loop at lines 228-229 of `encode_message_to_cover_text`:
`while len(bit_sequence) % CHUNK_SIZE != 0: bit_sequence.append(0)`.
Python's `append` adds at the right end of the list. -/
def padBits (bits : List Nat) : List Nat :=
  if bits.length % CHUNK_SIZE = 0 then bits else padBits (bits ++ [0])
termination_by (CHUNK_SIZE - bits.length % CHUNK_SIZE) % CHUNK_SIZE
decreasing_by
  simp only [CHUNK_SIZE, List.length_append, List.length_cons, List.length_nil] at *
  omega

theorem padBits_closed_aux :
    ∀ (k : Nat) (bits : List Nat),
      (CHUNK_SIZE - bits.length % CHUNK_SIZE) % CHUNK_SIZE = k →
      padBits bits = bits ++ List.replicate k 0 := by
  intro k
  induction k with
  | zero =>
    intro bits h
    have h0 : bits.length % CHUNK_SIZE = 0 := by
      simp only [CHUNK_SIZE] at h ⊢
      omega
    rw [padBits, if_pos h0]
    simp
  | succ k ih =>
    intro bits h
    have h0 : ¬ bits.length % CHUNK_SIZE = 0 := by
      simp only [CHUNK_SIZE] at h ⊢
      omega
    have hnext : (CHUNK_SIZE - (bits ++ [0]).length % CHUNK_SIZE) % CHUNK_SIZE = k := by
      simp only [CHUNK_SIZE, List.length_append, List.length_cons, List.length_nil] at h ⊢
      omega
    rw [padBits, if_neg h0, ih (bits ++ [0]) hnext]
    simp [List.replicate_succ]

/-- Closed form of the padding loop: it appends zeros on the right until the
length is a multiple of `CHUNK_SIZE`. -/
theorem padBits_closed (bits : List Nat) :
    padBits bits =
      bits ++ List.replicate ((CHUNK_SIZE - bits.length % CHUNK_SIZE) % CHUNK_SIZE) 0 :=
  padBits_closed_aux _ bits rfl

theorem padBits_length (bits : List Nat) :
    (padBits bits).length =
      bits.length + (CHUNK_SIZE - bits.length % CHUNK_SIZE) % CHUNK_SIZE := by
  rw [padBits_closed]
  simp

theorem padBits_length_mod (bits : List Nat) :
    (padBits bits).length % CHUNK_SIZE = 0 := by
  rw [padBits_length]
  simp only [CHUNK_SIZE]
  omega

/-- The chunk split at line 230:
`bit_chunks = [bit_sequence[i:i + CHUNK_SIZE] for i in range(0, len(bit_sequence), CHUNK_SIZE)]`
with the constant `CHUNK_SIZE = 4`, written as four-at-a-time structural
recursion (a final slice shorter than 4 is kept as Python's slicing keeps it;
after `padBits` it never occurs). -/
def bitChunksOf : List Nat → List (List Nat)
  | [] => []
  | [a] => [[a]]
  | [a, b] => [[a, b]]
  | [a, b, c] => [[a, b, c]]
  | a :: b :: c :: d :: rest => [a, b, c, d] :: bitChunksOf rest

theorem bitChunksOf_spec :
    ∀ (n : Nat) (l : List Nat), l.length = CHUNK_SIZE * n →
      (bitChunksOf l).length = n ∧ ∀ c ∈ bitChunksOf l, c.length = CHUNK_SIZE := by
  intro n
  induction n with
  | zero =>
    intro l h
    simp only [CHUNK_SIZE, Nat.mul_zero] at h
    have : l = [] := List.length_eq_zero.mp h
    subst this
    simp [bitChunksOf]
  | succ n ih =>
    intro l h
    simp only [CHUNK_SIZE] at h
    match l with
    | [] => simp at h
    | [a] => simp at h; omega
    | [a, b] => simp at h; omega
    | [a, b, c] => simp at h; omega
    | a :: b :: c :: d :: rest =>
      have hr : rest.length = CHUNK_SIZE * n := by
        simp only [CHUNK_SIZE]
        simp at h
        omega
      obtain ⟨h1, h2⟩ := ih rest hr
      constructor
      · simp [bitChunksOf, h1]
      · intro ch hch
        simp only [bitChunksOf, List.mem_cons] at hch
        rcases hch with rfl | hch
        · simp [CHUNK_SIZE]
        · exact h2 ch hch

/-! Text helpers mirroring the Python string operations used at lines 240 and
245-246: `str.isprintable`/`ord` filtering, `"".join`, `str.strip`,
`str.count` on single characters, and `len(str.split())`. They operate on
`List Char` so every step is structurally recursive. -/

/-- Python whitespace as used by `str.strip()` and `str.split()`:
space, tab, newline, carriage return, vertical tab, form feed. -/
def isPySpace (c : Char) : Bool :=
  c == ' ' || c == '\t' || c == '\n' || c == '\r' || c == Char.ofNat 11 || c == Char.ofNat 12

/-- Python `str.strip()`: drop leading and trailing whitespace. -/
def pyStrip (l : List Char) : List Char :=
  ((l.dropWhile isPySpace).reverse.dropWhile isPySpace).reverse

/-- Helper for `pyWordCount`: counts maximal whitespace-separated runs,
carrying whether the scan currently sits inside a word. -/
def wordCountAux : List Char → Bool → Nat
  | [], _ => 0
  | c :: rest, inWord =>
    if isPySpace c then wordCountAux rest false
    else (if inWord then 0 else 1) + wordCountAux rest true

/-- Python `len(s.split())`: number of maximal non-whitespace runs. -/
def pyWordCount (l : List Char) : Nat := wordCountAux l false

/-- Python `s.count(".") + s.count("!") + s.count("?")` from line 246. -/
def countTerminal (l : List Char) : Nat := l.count '.' + l.count '!' + l.count '?'

/-- Line 245: `joined = "".join(generated_tokens).strip()`. -/
def joinedOf (toks : List (List Char)) : List Char := pyStrip toks.flatten

/-- The stopping test of line 246:
`joined.count(".") + joined.count("!") + joined.count("?") >= 2 or len(joined.split()) > 20`. -/
def stopCond (joined : List Char) : Prop :=
  2 ≤ countTerminal joined ∨ 20 < pyWordCount joined

instance stopCondDecidable (j : List Char) : Decidable (stopCond j) :=
  inferInstanceAs (Decidable (2 ≤ countTerminal j ∨ 20 < pyWordCount j))

/-- External collaborators of `encode_message_to_cover_text` (lines 224,
235-239): the tokenizer's `encode` of the seed prompt, the model forward pass
composed with `torch.topk(logits, TOP_K).indices.tolist()` giving the ranked
candidate ids for a context, the tokenizer's `decode` of one token id, and
Python's `str.isprintable` character predicate. They are parameters of the
embedding; the claims quantify over them. -/
structure ModelEnv where
  encode : String → List Nat
  candidates : List Nat → List Nat
  decodeTok : Nat → String
  isPrintable : Char → Bool

/-- Line 233: `target_index = int(''.join(map(str, chunk)), 2)` — the chunk
read as a base-2 numeral, most significant bit first. -/
def chunkValue (chunk : List Nat) : Nat := chunk.foldl (fun a b => 2 * a + b) 0

/-- Line 238: `token_id = sorted_indices[target_index % len(sorted_indices)]`
(combined with line 233). The Lean `getD` default 0 stands for the
`ZeroDivisionError` Python would raise on an empty candidate list, a case the
code never reaches since `topk` returns `TOP_K` indices. -/
def select (cands : List Nat) (chunk : List Nat) : Nat :=
  cands.getD (chunkValue chunk % cands.length) 0

/-- Line 240:
`token_str = ''.join(char for char in token_str if char.isprintable() and ord(char) < 128)`. -/
def filterPrintableAscii (env : ModelEnv) (s : String) : List Char :=
  s.toList.filter (fun c => env.isPrintable c && decide (c.toNat < 128))

/-- Mutable locals of the generation loop (lines 224-226): `input_ids`,
`generated_tokens`, `used_chunks`. -/
structure GenState where
  input_ids : List Nat
  generated_tokens : List (List Char)
  used_chunks : Nat

/-- One iteration body of the `for chunk in bit_chunks` loop (lines 233-244),
up to but not including the stopping test. -/
def embedStep (env : ModelEnv) (st : GenState) (chunk : List Nat) : GenState :=
  let sorted_indices := env.candidates st.input_ids
  let token_id := select sorted_indices chunk
  let token_str := filterPrintableAscii env (env.decodeTok token_id)
  { input_ids := st.input_ids ++ [token_id]
    generated_tokens := st.generated_tokens ++ [token_str]
    used_chunks := st.used_chunks + 1 }

/-- The `for chunk in bit_chunks` loop of lines 232-247 with its `break` on
the stopping condition. -/
def embedLoop (env : ModelEnv) : List (List Nat) → GenState → GenState
  | [], st => st
  | chunk :: rest, st =>
    let st' := embedStep env st chunk
    if stopCond (joinedOf st'.generated_tokens) then st'
    else embedLoop env rest st'

/-- `encode_message_to_cover_text` (lines 214-248). The random choice of the
seed prompt (line 223) is modelled as the explicit `seed_prompt` argument.
Because line 229 mutates the caller's `bit_sequence` in place, the embedding
passes that state explicitly: the first component of the result is the final
value of the caller's list; the second and third components are the source's
return pair `("".join(generated_tokens).strip(), used_chunks * CHUNK_SIZE)`. -/
def encode_message_to_cover_text (env : ModelEnv) (seed_prompt : String)
    (bit_sequence : List Nat) : List Nat × String × Nat :=
  let input_ids := env.encode seed_prompt
  let padded := padBits bit_sequence
  let bit_chunks := bitChunksOf padded
  let final := embedLoop env bit_chunks ⟨input_ids, [], 0⟩
  (padded, String.mk (joinedOf final.generated_tokens), final.used_chunks * CHUNK_SIZE)

/-- The final loop state of one `encode_message_to_cover_text` run. -/
def encodeState (env : ModelEnv) (seed_prompt : String) (bit_sequence : List Nat) : GenState :=
  embedLoop env (bitChunksOf (padBits bit_sequence)) ⟨env.encode seed_prompt, [], 0⟩

/-- The token text appended by one loop iteration. -/
def tokOf (env : ModelEnv) (st : GenState) (chunk : List Nat) : List Char :=
  filterPrintableAscii env (env.decodeTok (select (env.candidates st.input_ids) chunk))

theorem embedStep_eq (env : ModelEnv) (st : GenState) (chunk : List Nat) :
    embedStep env st chunk =
      ⟨st.input_ids ++ [select (env.candidates st.input_ids) chunk],
       st.generated_tokens ++ [tokOf env st chunk], st.used_chunks + 1⟩ := rfl

/-- Structure of the generation loop: it appends some token list `ts`, one
token and one consumed chunk per iteration; it never iterates past a state
where the stopping condition holds; and when it leaves chunks unconsumed the
stopping condition holds at its final accumulated text. -/
theorem embedLoop_spec (env : ModelEnv) :
    ∀ (chunks : List (List Nat)) (st : GenState),
      ∃ ts : List (List Char),
        (embedLoop env chunks st).generated_tokens = st.generated_tokens ++ ts ∧
        (embedLoop env chunks st).used_chunks = st.used_chunks + ts.length ∧
        ts.length ≤ chunks.length ∧
        (∀ j, j + 1 < ts.length →
          ¬ stopCond (joinedOf (st.generated_tokens ++ ts.take (j + 1)))) ∧
        (ts.length < chunks.length →
          stopCond (joinedOf (st.generated_tokens ++ ts))) := by
  intro chunks
  induction chunks with
  | nil =>
    intro st
    refine ⟨[], by simp [embedLoop], by simp [embedLoop], by simp, ?_, by simp⟩
    intro j hj
    simp at hj
  | cons chunk rest ih =>
    intro st
    have hg : (embedStep env st chunk).generated_tokens
        = st.generated_tokens ++ [tokOf env st chunk] := rfl
    have hu : (embedStep env st chunk).used_chunks = st.used_chunks + 1 := rfl
    by_cases hstop : stopCond (joinedOf (embedStep env st chunk).generated_tokens)
    · refine ⟨[tokOf env st chunk], ?_, ?_, ?_, ?_, ?_⟩
      · rw [embedLoop, if_pos hstop, hg]
      · rw [embedLoop, if_pos hstop, hu]
        rfl
      · simp
      · intro j hj
        simp at hj
      · intro _
        rw [hg] at hstop
        exact hstop
    · obtain ⟨ts', h1, h2, h3, h4, h5⟩ := ih (embedStep env st chunk)
      refine ⟨tokOf env st chunk :: ts', ?_, ?_, ?_, ?_, ?_⟩
      · rw [embedLoop, if_neg hstop, h1, hg]
        simp
      · rw [embedLoop, if_neg hstop, h2, hu]
        simp [Nat.add_assoc, Nat.add_comm 1 ts'.length]
      · simpa using Nat.succ_le_succ h3
      · intro j hj
        match j with
        | 0 =>
          simpa [hg] using hstop
        | j' + 1 =>
          have hj' : j' + 1 < ts'.length := by
            simpa using Nat.lt_of_succ_lt_succ hj
          have := h4 j' hj'
          rw [hg] at this
          simpa [List.append_assoc] using this
      · intro hlen
        have hlen' : ts'.length < rest.length := by
          simpa using Nat.lt_of_succ_lt_succ hlen
        have := h5 hlen'
        rw [hg] at this
        simpa [List.append_assoc] using this

/-- The spec's reading of a chunk: an unsigned big-endian integer, the first
bit being the most significant. -/
def bigEndianValue : List Nat → Nat
  | [] => 0
  | b :: rest => b * 2 ^ rest.length + bigEndianValue rest

theorem foldl_two_mul_add (l : List Nat) :
    ∀ a : Nat, l.foldl (fun x y => 2 * x + y) a = a * 2 ^ l.length + bigEndianValue l := by
  induction l with
  | nil => intro a; simp [bigEndianValue]
  | cons b rest ih =>
    intro a
    simp only [List.foldl_cons, bigEndianValue, List.length_cons]
    rw [ih (2 * a + b)]
    ring

theorem chunkValue_eq_bigEndian (l : List Nat) : chunkValue l = bigEndianValue l := by
  unfold chunkValue
  rw [foldl_two_mul_add]
  simp

/-- A concrete instantiation of the external model collaborators, used by the
concrete evaluations below: the prompt encodes to `[0]`, the ranked candidate
set is always `0..TOP_K-1`, every token decodes to `"hi"`, and every character
counts as printable. -/
def trivEnv : ModelEnv where
  encode := fun _ => [0]
  candidates := fun _ => List.range TOP_K
  decodeTok := fun _ => "hi"
  isPrintable := fun _ => true

/-- C2, counterexample: on the bitstream `[1]` with chunk width 4 the code
pads to `[1, 0, 0, 0]` (zeros appended on the right), not to the left-padded
`[0, 0, 0, 1]` the claim demands. -/
theorem c2_left_pad_counterexample :
    padBits [1] = [1, 0, 0, 0] ∧ padBits [1] ≠ [0, 0, 0, 1] := by
  have h : padBits [1] = [1, 0, 0, 0] := by
    rw [padBits_closed]
    rfl
  exact ⟨h, by rw [h]; decide⟩

/-- C2, amended: for every input bitstream whose length is not a multiple of
`chunk_width`, embed pads the bitstream with zero bits on the right (appending
zeros) until its length is a multiple of `chunk_width`, before splitting it
into chunks. -/
theorem c2_pads_on_right (bits : List Nat) :
    padBits bits =
      bits ++ List.replicate ((CHUNK_SIZE - bits.length % CHUNK_SIZE) % CHUNK_SIZE) 0 ∧
    (padBits bits).length % CHUNK_SIZE = 0 :=
  ⟨padBits_closed bits, padBits_length_mod bits⟩

/-- C3: `select` interprets the chunk as an unsigned big-endian integer `i`
and returns `candidates[i % len(candidates)]`; in particular the chunk
`[1, 0, 1, 1]` has value 11 and, on the ranked candidate set `0..15`, `select`
returns the candidate at index 11. -/
theorem c3_select_big_endian :
    (∀ (cands chunk : List Nat),
        select cands chunk = cands.getD (bigEndianValue chunk % cands.length) 0) ∧
    chunkValue [1, 0, 1, 1] = 11 ∧
    select (List.range 16) [1, 0, 1, 1] = (List.range 16).getD 11 0 ∧
    (List.range 16).getD 11 0 = 11 := by
  refine ⟨?_, by decide, by decide, by decide⟩
  intro cands chunk
  rw [select, chunkValue_eq_bigEndian]

/-- C4: generation never continues past a step at which the accumulated
(joined and stripped) text satisfies the stopping condition (at least two of
`.`, `!`, `?`, or more than 20 words): at every consumed step except possibly
the last the condition is false, when chunks remain unconsumed the condition
holds at the final accumulated text, and the bits-embedded count is exactly
`used_chunks * CHUNK_SIZE` for the chunks consumed. -/
theorem c4_stopping_policy (env : ModelEnv) (prompt : String) (bits : List Nat) :
    (∀ j, j + 1 < (encodeState env prompt bits).used_chunks →
        ¬ stopCond (joinedOf ((encodeState env prompt bits).generated_tokens.take (j + 1)))) ∧
    ((encodeState env prompt bits).used_chunks < (bitChunksOf (padBits bits)).length →
        stopCond (joinedOf (encodeState env prompt bits).generated_tokens)) ∧
    (encode_message_to_cover_text env prompt bits).2.2 =
        (encodeState env prompt bits).used_chunks * CHUNK_SIZE := by
  obtain ⟨ts, h1, h2, h3, h4, h5⟩ :=
    embedLoop_spec env (bitChunksOf (padBits bits)) ⟨env.encode prompt, [], 0⟩
  have hg : (encodeState env prompt bits).generated_tokens = ts := by
    simpa [encodeState] using h1
  have hu : (encodeState env prompt bits).used_chunks = ts.length := by
    simpa [encodeState] using h2
  refine ⟨?_, ?_, rfl⟩
  · intro j hj
    rw [hg]
    rw [hu] at hj
    simpa using h4 j hj
  · intro hlt
    rw [hg]
    rw [hu] at hlt
    simpa using h5 hlt

/-- C5: for every bitstream of length `n`, embed forms exactly
`ceil(n / chunk_width)` chunks, each of width `chunk_width`, the final chunk
zero-padded on the right; in particular a bitstream of length 6 is padded to 8
bits ending in two zeros and produces exactly 2 chunks. -/
theorem c5_chunk_count (bits : List Nat) :
    (bitChunksOf (padBits bits)).length = (bits.length + CHUNK_SIZE - 1) / CHUNK_SIZE ∧
    (∀ c ∈ bitChunksOf (padBits bits), c.length = CHUNK_SIZE) ∧
    padBits [1, 0, 1, 1, 0, 1] = [1, 0, 1, 1, 0, 1, 0, 0] ∧
    bitChunksOf (padBits [1, 0, 1, 1, 0, 1]) = [[1, 0, 1, 1], [0, 1, 0, 0]] := by
  have hmod := padBits_length_mod bits
  have hlen := padBits_length bits
  have hform : (padBits bits).length = CHUNK_SIZE * ((padBits bits).length / CHUNK_SIZE) := by
    simp only [CHUNK_SIZE] at hmod ⊢
    omega
  obtain ⟨hc, hall⟩ := bitChunksOf_spec ((padBits bits).length / CHUNK_SIZE) (padBits bits) hform
  have hsix : padBits [1, 0, 1, 1, 0, 1] = [1, 0, 1, 1, 0, 1, 0, 0] := by
    rw [padBits_closed]
    rfl
  refine ⟨?_, hall, hsix, ?_⟩
  · rw [hc]
    simp only [CHUNK_SIZE] at hlen hmod ⊢
    omega
  · rw [hsix]
    decide

/-- C6, counterexample: on the one-bit input `[1]` (with the concrete model
`trivEnv`, whose token text never triggers the stopping policy) the code
consumes the single padded chunk and reports 4 bits embedded, which exceeds
the original input length 1. -/
theorem c6_counterexample :
    (encode_message_to_cover_text trivEnv "p" [1]).2.2 = 4 ∧
    ¬ ((encode_message_to_cover_text trivEnv "p" [1]).2.2 ≤ ([1] : List Nat).length) := by
  have hp : padBits [1] = [1, 0, 0, 0] := by
    rw [padBits_closed]
    rfl
  have h : (encode_message_to_cover_text trivEnv "p" [1]).2.2 = 4 := by
    simp only [encode_message_to_cover_text, hp]
    decide
  exact ⟨h, by rw [h]; decide⟩

/-- C6, amended: the bits-embedded count is at most the length of the padded
bitstream (the input after the right zero-padding of lines 228-229), for every
model, prompt and input. -/
theorem c6_bits_embedded_le_padded (env : ModelEnv) (prompt : String) (bits : List Nat) :
    (encode_message_to_cover_text env prompt bits).2.2 ≤ (padBits bits).length := by
  obtain ⟨ts, h1, h2, h3, h4, h5⟩ :=
    embedLoop_spec env (bitChunksOf (padBits bits)) ⟨env.encode prompt, [], 0⟩
  have hmod := padBits_length_mod bits
  have hform : (padBits bits).length = CHUNK_SIZE * ((padBits bits).length / CHUNK_SIZE) := by
    simp only [CHUNK_SIZE] at hmod ⊢
    omega
  obtain ⟨hc, _⟩ := bitChunksOf_spec ((padBits bits).length / CHUNK_SIZE) (padBits bits) hform
  have he : (encode_message_to_cover_text env prompt bits).2.2 =
      (embedLoop env (bitChunksOf (padBits bits)) ⟨env.encode prompt, [], 0⟩).used_chunks
        * CHUNK_SIZE := rfl
  rw [he, h2]
  rw [hc] at h3
  simp only [CHUNK_SIZE] at hmod h3 ⊢
  omega

/-- C7: embed is deterministic — two invocations with the same model
collaborators (score/rank function, tokenizer), the same seed prompt and the
same input bit sequence produce the same mutated bitstream, cover text and
bits-embedded count. -/
theorem c7_deterministic (env₁ env₂ : ModelEnv) (p₁ p₂ : String) (b₁ b₂ : List Nat)
    (he : env₁ = env₂) (hp : p₁ = p₂) (hb : b₁ = b₂) :
    encode_message_to_cover_text env₁ p₁ b₁ = encode_message_to_cover_text env₂ p₂ b₂ := by
  rw [he, hp, hb]

/-- Witness for C7 at a concrete model, prompt and bitstream. -/
theorem c7_witness :
    encode_message_to_cover_text trivEnv "p" [1, 0] =
      encode_message_to_cover_text trivEnv "p" [1, 0] :=
  c7_deterministic trivEnv trivEnv "p" "p" [1, 0] [1, 0] rfl rfl rfl

/-- C8, counterexample: called on the empty bitstream the code does not fail;
it returns the empty cover text and a bits-embedded count of 0 (the
`EmptyBitstream` guard exists only in the `decode_cover_chunks` endpoint, not
in `encode_message_to_cover_text`). -/
theorem c8_counterexample :
    (encode_message_to_cover_text trivEnv "p" ([] : List Nat)).2 = ("", 0) := by
  have hp : padBits ([] : List Nat) = [] := by
    rw [padBits_closed]
    rfl
  simp only [encode_message_to_cover_text, hp]
  decide

/-- C8, amended: embed called with an empty bitstream returns the empty cover
text and a bits-embedded count of 0 (no error is raised and no chunk is
consumed), for every model and prompt. -/
theorem c8_empty_returns_empty (env : ModelEnv) (prompt : String) :
    (encode_message_to_cover_text env prompt []).2 = ("", 0) := by
  have hp : padBits ([] : List Nat) = [] := by
    rw [padBits_closed]
    rfl
  simp only [encode_message_to_cover_text, hp]
  rfl

/-- C9, counterexample: embedding the bitstream `[1]` leaves the caller's list
holding `[1, 0, 0, 0]` — the padding of line 229 mutates the input in place,
so the bitstream is not unchanged by the call. -/
theorem c9_counterexample :
    (encode_message_to_cover_text trivEnv "p" [1]).1 = [1, 0, 0, 0] ∧
    (encode_message_to_cover_text trivEnv "p" [1]).1 ≠ [1] := by
  have hp : padBits [1] = [1, 0, 0, 0] := by
    rw [padBits_closed]
    rfl
  have h : (encode_message_to_cover_text trivEnv "p" [1]).1 = [1, 0, 0, 0] := by
    simp only [encode_message_to_cover_text, hp]
  exact ⟨h, by rw [h]; decide⟩

/-- C9, amended: embed mutates its input bitstream exactly by the right
zero-padding — after the call the caller's list equals the original with
`(chunk_width - n % chunk_width) % chunk_width` zeros appended, and it is
unchanged precisely when the original length is already a multiple of
`chunk_width`. -/
theorem c9_mutates_by_padding (env : ModelEnv) (prompt : String) (bits : List Nat) :
    (encode_message_to_cover_text env prompt bits).1 =
      bits ++ List.replicate ((CHUNK_SIZE - bits.length % CHUNK_SIZE) % CHUNK_SIZE) 0 ∧
    (bits.length % CHUNK_SIZE = 0 → (encode_message_to_cover_text env prompt bits).1 = bits) := by
  have h : (encode_message_to_cover_text env prompt bits).1 = padBits bits := rfl
  constructor
  · rw [h, padBits_closed]
  · intro hm
    rw [h, padBits_closed, hm]
    simp [CHUNK_SIZE]

/-! Bit-level codec: `text_to_bits` (lines 160-180) and `bits_to_text`
(lines 183-212). The `Compressor` and `Encryptor` classes live in modules of
this repository that are not part of the embedded file, so they are modelled
from the spec below; the composition — which compression tag is passed, which
mode, key and IV reach the cipher — is taken from the embedded source. The
configured cipher mode (`DEFAULT_ENCRYPTION_MODE`, read from an external
config file) is a parameter `mode` of the embedding. -/

/-- Constant `DEFAULT_KEY = b"thisis16byteskey"` (line 42), as byte values. -/
def DEFAULT_KEY : List Nat := "thisis16byteskey".toList.map Char.toNat

/-- Constant `DEFAULT_IV = b"initialvector123"` (line 43), as byte values. -/
def DEFAULT_IV : List Nat := "initialvector123".toList.map Char.toNat

/-- Error kinds of the codec boundary, from the spec's error taxonomy. -/
inductive CodecError where
  | unsupportedMethod
  | decompressionFailure
deriving DecidableEq

/-- A byte value rendered as 8 bits, most significant first. -/
def byteToBits (b : Nat) : List Nat :=
  [b / 128 % 2, b / 64 % 2, b / 32 % 2, b / 16 % 2, b / 8 % 2, b / 4 % 2, b / 2 % 2, b % 2]

/-- Modelled from the spec: the compression provider's `compress(text)` for
the `utf8` tag (`Compression.compression.Compressor` is not in the embedded
file). Text bytes are serialised to bits, 8 bits per character, most
significant first; the byte-level details of the real provider are out of
scope, only the exact-inverse contract matters. -/
def compressBits (text : String) : List Nat :=
  (text.toList.map (fun c => byteToBits (c.toNat % 256))).flatten

/-- Groups a bitstream into byte values, 8 bits per byte, most significant
first; `none` when the length is not a multiple of 8. -/
def bitsToBytes : List Nat → Option (List Nat)
  | [] => some []
  | b7 :: b6 :: b5 :: b4 :: b3 :: b2 :: b1 :: b0 :: rest =>
    (bitsToBytes rest).map
      (fun bs => (128 * b7 + 64 * b6 + 32 * b5 + 16 * b4 + 8 * b3 + 4 * b2 + 2 * b1 + b0) :: bs)
  | _ => none

/-- Modelled from the spec: the compression provider's `decompress(bits)` for
the `utf8` tag — the exact inverse of `compressBits`, failing with
`DecompressionFailure` on a malformed stream. -/
def decompressBits (bits : List Nat) : Except CodecError String :=
  match bitsToBytes bits with
  | none => .error .decompressionFailure
  | some bytes =>
    if bytes.all (fun b => b < 128) then .ok (String.mk (bytes.map Char.ofNat))
    else .error .decompressionFailure

/-- Modelled from the spec: compression-method dispatch — an unrecognised tag
fails with `UnsupportedMethod`. -/
def compressTag (method : String) (text : String) : Except CodecError (List Nat) :=
  if method = "utf8" then .ok (compressBits text) else .error .unsupportedMethod

/-- Modelled from the spec: decompression dispatch by method tag. -/
def decompressTag (method : String) (bits : List Nat) : Except CodecError String :=
  if method = "utf8" then decompressBits bits else .error .unsupportedMethod

/-- Modelled from the spec: the cipher provider
(`Encryption.encryption.Encryptor` is not in the embedded file). A mode's
encryption is a stream transform: a keystream determined by the mode tag, the
key and the (optional) IV is combined bitwise with the data, and decryption
applies the identical transform, so the pair is exact-inverse precisely when
both sides use the same mode, key and IV. -/
def keystreamBit (mode : String) (key : List Nat) (iv : Option (List Nat)) (i : Nat) : Nat :=
  let ivb := match iv with
    | none => 0
    | some v => v.getD (i % v.length) 0
  (key.getD (i % key.length) 0 + ivb + i + mode.length) % 2

/-- Modelled from the spec: XOR of a bitstream with the mode's keystream;
used for both `encrypt` and `decrypt`. -/
def cipherBits (mode : String) (key : List Nat) (iv : Option (List Nat))
    (bits : List Nat) : List Nat :=
  (List.range bits.length).map (fun i => (bits.getD i 0 + keystreamBit mode key iv i) % 2)

/-- `text_to_bits` (lines 160-180): compress, then encrypt with
`iv_arg = DEFAULT_IV if DEFAULT_ENCRYPTION_MODE == 'OFB' else None` (line 167)
and `DEFAULT_KEY`. -/
def text_to_bits (mode : String) (method : String) (text : String) :
    Except CodecError (List Nat) :=
  (compressTag method text).map (fun compressed_bits =>
    let iv_arg := if mode = "OFB" then some DEFAULT_IV else none
    cipherBits mode DEFAULT_KEY iv_arg compressed_bits)

/-- `bits_to_text` (lines 183-212): the method tag `"default"` is aliased to
`'utf8'` (lines 186-187), then the bits are decrypted by an `Encryptor` built
with `iv=None` (line 193) and `DEFAULT_KEY`, then decompressed. -/
def bits_to_text (mode : String) (method : String) (bits : List Nat) :
    Except CodecError String :=
  let method := if method = "default" then "utf8" else method
  let decrypted_bits := cipherBits mode DEFAULT_KEY none bits
  decompressTag method decrypted_bits

/-- C1: the round trip `bits_to_text(text_to_bits(t))` fails for the cipher
mode `OFB` at the plaintext `"A"`: encryption uses `DEFAULT_IV` (line 167)
but decryption builds its `Encryptor` with `iv=None` (line 193), so the
decrypted bits differ from the compressed bits and decoding reports a failure
instead of returning `"A"`. With a mode that takes no IV (here `"ECB"`) the
same composition does round-trip, isolating the missing IV as the cause. -/
theorem c1_ofb_roundtrip_fails :
    (text_to_bits "OFB" "utf8" "A" >>= bits_to_text "OFB" "utf8") =
      Except.error CodecError.decompressionFailure ∧
    (Except.error CodecError.decompressionFailure : Except CodecError String) ≠
      Except.ok "A" ∧
    (text_to_bits "ECB" "utf8" "A" >>= bits_to_text "ECB" "utf8") = Except.ok "A" := by
  refine ⟨by rfl, ?_, by rfl⟩
  intro h
  exact Except.noConfusion h

/-- C10: `bits_to_text` invoked with compression method tag `"default"`
returns the same result (or fails the same way) as with the tag `"utf8"`, for
every mode and bitstream: lines 186-187 silently alias `"default"` to
`'utf8'` instead of rejecting it. -/
theorem c10_default_aliases_utf8 (mode : String) (bits : List Nat) :
    bits_to_text mode "default" bits = bits_to_text mode "utf8" bits := rfl

end WindTexter
